import Mathlib

/-!
# Verification of the sales-analytics parse–validate–filter pipeline

Shallow embedding of the core of the `sales-analytics-system` repository
(`src/utils/file_handler.py` and `src/utils/data_processor.py`) together with
proofs of the specified properties.

Modelling conventions:
* Python strings are Lean `String`s; the per-character operations
  (`strip`, `split`, `replace`, `lower`, `isdigit`, `startswith`) are
  re-implemented on `List Char` so that everything evaluates by kernel
  reduction.
* Python machine floats are modelled as exact decimal values
  `mantissa × 10 ^ exp10` (`DecFloat`); arithmetic on them is exact rational
  arithmetic (`ℚ`).  `str(float)` is modelled by `pyFloatRepr`, which follows
  CPython's repr rule: positional notation when the decimal exponent of the
  value lies in `[-4, 16)`, scientific notation otherwise.
* Python `round(x, 2)` (round-half-to-even) is `round2`, exact on `ℚ`.
* Python dicts used as records are modelled by structures; dicts used for
  grouping (insertion-ordered) are modelled by association lists in
  first-occurrence order.
-/

/-! ## Python-style character/string primitives -/

/-- Python whitespace characters recognised by `str.strip()` (ASCII fragment). -/
def pyIsSpace (c : Char) : Bool :=
  c = ' ' || c = '\t' || c = '\n' || c = '\r' || c = '\x0b' || c = '\x0c'

/-- `str.strip()` on a character list: drop leading and trailing whitespace. -/
def listTrim (l : List Char) : List Char :=
  ((l.dropWhile pyIsSpace).reverse.dropWhile pyIsSpace).reverse

/-- `str.strip()` on strings. -/
def pyStrip (s : String) : String := ⟨listTrim s.data⟩

/-- Python `str.split(sep)` for a single-character separator.
`splitOnChar c "" = [""]`, exactly as in Python. -/
def splitOnChar (sep : Char) : List Char → List (List Char)
  | [] => [[]]
  | c :: rest =>
    match splitOnChar sep rest with
    | [] => [[]]
    | g :: gs => if c = sep then [] :: g :: gs else (c :: g) :: gs

/-- Python `s.split(sep)` on strings (single-character separator). -/
def pySplit (sep : Char) (s : String) : List String :=
  (splitOnChar sep s.data).map (fun cs => ⟨cs⟩)

/-- Python `str.replace(old, "")` for a single character: delete every
occurrence. -/
def removeChar (sep : Char) (l : List Char) : List Char :=
  l.filter (fun c => c ≠ sep)

/-- `s.replace(',', '')` — strip comma thousands-separators. -/
def stripCommas (s : String) : String := ⟨removeChar ',' s.data⟩

/-- Python `str.startswith(prefix)`. -/
def pyStartsWith (s p : String) : Bool := p.data.isPrefixOf s.data

/-- Python `str.lower()` (ASCII model). -/
def pyLower (s : String) : String := ⟨s.data.map Char.toLower⟩

/-- Python `str.isdigit()` on a character list: non-empty and all digits. -/
def pyIsdigitL (l : List Char) : Bool := !l.isEmpty && l.all Char.isDigit

/-- Python `str.replace('.', '', 1)`: remove the first dot, if any. -/
def removeFirstDot : List Char → List Char
  | [] => []
  | c :: r => if c = '.' then r else c :: removeFirstDot r

/-- Decimal digits of a list of digit characters, most significant first. -/
def digitsToNat (l : List Char) : Nat :=
  l.foldl (fun acc c => acc * 10 + (c.toNat - '0'.toNat)) 0

/-- Fuel-bounded digit expansion (structural recursion, so that the kernel
can evaluate it; fuel `n + 1` always suffices since `n / 10 < n`). -/
def natDigitsAux : Nat → Nat → List Char
  | 0, _ => []
  | fuel + 1, n =>
    if n < 10 then [Nat.digitChar n]
    else natDigitsAux fuel (n / 10) ++ [Nat.digitChar (n % 10)]

/-- The decimal digit characters of `n`, most significant first (`natDigits 0
= ['0']`). -/
def natDigits (n : Nat) : List Char := natDigitsAux (n + 1) n

/-- Python `int(s)` on an already-stripped string: optional sign followed by a
non-empty run of digits (underscore separators and non-ASCII digits are not
modelled). -/
def pyInt (s : String) : Option Int :=
  match s.data with
  | [] => none
  | '+' :: r => if !r.isEmpty && r.all Char.isDigit then some (digitsToNat r) else none
  | '-' :: r => if !r.isEmpty && r.all Char.isDigit then some (-(digitsToNat r : Int)) else none
  | l => if l.all Char.isDigit then some (digitsToNat l) else none

/-- Python `str(n)` for an integer. -/
def pyIntRepr (n : Int) : String :=
  if n < 0 then ⟨'-' :: natDigits n.natAbs⟩ else ⟨natDigits n.natAbs⟩

/-! ## The Python float model (`DecFloat`) -/

/-- A Python float literal value, kept exactly: `mantissa × 10 ^ exp10`.
Machine rounding to binary is not modelled; all arithmetic is exact. -/
structure DecFloat where
  mantissa : Int
  exp10 : Int
deriving DecidableEq, Repr

/-- `10 ^ k` on `ℤ`, by structural recursion (kernel-reducible). -/
def tenPow : Nat → Int
  | 0 => 1
  | k + 1 => 10 * tenPow k

/-- The exact rational value of a `DecFloat`. -/
def DecFloat.val (f : DecFloat) : ℚ :=
  if 0 ≤ f.exp10 then ((f.mantissa * tenPow f.exp10.toNat : ℤ) : ℚ)
  else (f.mantissa : ℚ) / ((tenPow (-f.exp10).toNat : ℤ) : ℚ)

/-- Python `float(s)` on an already-stripped string: optional sign, integer
digits, optional fraction, optional exponent.  `inf`/`nan` and underscore
separators are not modelled. -/
def pyFloatParse (s : String) : Option DecFloat :=
  let (sgn, cs0) :=
    match s.data with
    | '+' :: r => ((1 : Int), r)
    | '-' :: r => ((-1 : Int), r)
    | r => ((1 : Int), r)
  let ip := cs0.takeWhile Char.isDigit
  let cs1 := cs0.dropWhile Char.isDigit
  let (fp, cs2) :=
    match cs1 with
    | '.' :: r => (r.takeWhile Char.isDigit, r.dropWhile Char.isDigit)
    | r => (([] : List Char), r)
  if ip.isEmpty && fp.isEmpty then none
  else
    match cs2 with
    | [] => some ⟨sgn * digitsToNat (ip ++ fp), -(fp.length : Int)⟩
    | e :: r =>
      if e = 'e' || e = 'E' then
        let (esgn, ed) :=
          match r with
          | '+' :: r2 => ((1 : Int), r2)
          | '-' :: r2 => ((-1 : Int), r2)
          | r2 => ((1 : Int), r2)
        if !ed.isEmpty && ed.all Char.isDigit then
          some ⟨sgn * digitsToNat (ip ++ fp),
                esgn * (digitsToNat ed : Int) - (fp.length : Int)⟩
        else none
      else none

/-- Fuel-bounded trailing-zero stripping (structural, kernel-evaluable). -/
def stripZerosAux : Nat → Nat → Nat × Nat
  | 0, n => (n, 0)
  | fuel + 1, n =>
    if n ≠ 0 ∧ n % 10 = 0 then
      let p := stripZerosAux fuel (n / 10)
      (p.1, p.2 + 1)
    else (n, 0)

/-- Strip trailing decimal zeros: `stripZeros n = (m, z)` with
`n = m * 10 ^ z` and (for `n ≠ 0`) `m` not divisible by `10`. -/
def stripZeros (n : Nat) : Nat × Nat := stripZerosAux (n + 1) n

/-- The shortest-digits decimal significand of `n`: its digits with the
trailing zeros removed. -/
def reprDigits (n : Nat) : List Char := natDigits (stripZeros n).1

/-- The decimal exponent of the value `n × 10 ^ e` (`n > 0`): the `d` with
`n × 10 ^ e = x.xxx × 10 ^ d`. -/
def decExpOf (n : Nat) (e : Int) : Int :=
  ((reprDigits n).length : Int) - 1 + e + ((stripZeros n).2 : Int)

/-- The decimal exponent of a non-zero `DecFloat`. -/
def decExp (f : DecFloat) : Int := decExpOf f.mantissa.natAbs f.exp10

/-- Pad a digit list on the left to width 2 (CPython prints float exponents
with at least two digits). -/
def pad2 (l : List Char) : List Char :=
  if l.length < 2 then '0' :: l else l

/-- `repr` of a positive float value `n × 10 ^ e` (`n > 0`), following
CPython: positional when the decimal exponent is in `[-4, 16)`, scientific
otherwise. -/
def posRepr (n : Nat) (e : Int) : List Char :=
  if -4 ≤ decExpOf n e ∧ decExpOf n e < 16 then
    if ((reprDigits n).length : Int) - 1 ≤ decExpOf n e then
      reprDigits n
        ++ List.replicate (decExpOf n e - (((reprDigits n).length : Int) - 1)).toNat '0'
        ++ ['.', '0']
    else if 0 ≤ decExpOf n e then
      (reprDigits n).take ((decExpOf n e).toNat + 1) ++ ['.']
        ++ (reprDigits n).drop ((decExpOf n e).toNat + 1)
    else
      ['0', '.'] ++ List.replicate (-(decExpOf n e) - 1).toNat '0' ++ reprDigits n
  else
    (reprDigits n).take 1
      ++ (if 1 < (reprDigits n).length then '.' :: (reprDigits n).drop 1 else [])
      ++ ['e'] ++ (if decExpOf n e < 0 then ['-'] else ['+'])
      ++ pad2 (natDigits (decExpOf n e).natAbs)

/-- Python `str(f)` for a float. -/
def pyFloatRepr (f : DecFloat) : String :=
  if f.mantissa = 0 then "0.0"
  else if f.mantissa < 0 then ⟨'-' :: posRepr f.mantissa.natAbs f.exp10⟩
  else ⟨posRepr f.mantissa.natAbs f.exp10⟩

/-- The parser's numeric sanity check on a parsed price:
`str(price).replace('.', '', 1).isdigit()`. -/
def floatReprDigitCheck (f : DecFloat) : Bool :=
  pyIsdigitL (removeFirstDot (pyFloatRepr f).data)

/-! ## Python `round(x, 2)` -/

/-- Round to the nearest integer, ties to even (Python `round`). -/
def rndHalfEven (q : ℚ) : ℤ :=
  let f := ⌊q⌋
  let r := q - (f : ℚ)
  if r < 1 / 2 then f
  else if 1 / 2 < r then f + 1
  else if f % 2 = 0 then f else f + 1

/-- Python `round(x, 2)`, exact on rationals. -/
def round2 (q : ℚ) : ℚ := (rndHalfEven (q * 100) : ℚ) / 100

/-! ## Date parsing (`datetime.strptime(s, "%Y-%m-%d")`) and re-rendering -/

/-- Gregorian leap year, as in `datetime`. -/
def isLeap (y : Nat) : Bool :=
  y % 4 = 0 && (y % 100 ≠ 0 || y % 400 = 0)

/-- Days in a month, as in `datetime`. -/
def daysInMonth (y m : Nat) : Nat :=
  if m = 2 then (if isLeap y then 29 else 28)
  else if m = 4 || m = 6 || m = 9 || m = 11 then 30
  else 31

/-- `datetime.strptime(s, "%Y-%m-%d").date()`: exactly four year digits,
one or two month digits (1–12), one or two day digits valid for the month,
nothing left over; year `0000` is below `datetime.MINYEAR` and rejected. -/
def parseDate (s : String) : Option (Nat × Nat × Nat) :=
  match (splitOnChar '-' s.data).map (fun cs => cs) with
  | [ys, ms, ds] =>
    if ys.all Char.isDigit && ms.all Char.isDigit && ds.all Char.isDigit
        && ys.length = 4 && 1 ≤ ms.length && ms.length ≤ 2
        && 1 ≤ ds.length && ds.length ≤ 2 then
      let y := digitsToNat ys
      let m := digitsToNat ms
      let d := digitsToNat ds
      if 1 ≤ y && 1 ≤ m && m ≤ 12 && 1 ≤ d && d ≤ daysInMonth y m then
        some (y, m, d)
      else none
    else none
  | _ => none

/-- Left-pad a digit list with zeros to width `w`. -/
def padZeros (w : Nat) (l : List Char) : List Char :=
  List.replicate (w - l.length) '0' ++ l

/-- `date.strftime("%Y-%m-%d")`: canonical zero-padded rendering. -/
def renderDate (y m d : Nat) : String :=
  ⟨padZeros 4 (natDigits y) ++ '-' :: padZeros 2 (natDigits m) ++
    '-' :: padZeros 2 (natDigits d)⟩

/-! ## ProductName cleaning -/

/-- `name.replace(',', ' ')`. -/
def commaToSpace (l : List Char) : List Char :=
  l.map (fun c => if c = ',' then ' ' else c)

/-- One pass of `name.replace('  ', ' ')`: non-overlapping left-to-right
replacement of each double space by a single space. -/
def replacePairSpace : List Char → List Char
  | [] => []
  | [c] => [c]
  | c1 :: c2 :: rest =>
    if c1 = ' ' ∧ c2 = ' ' then ' ' :: replacePairSpace rest
    else c1 :: replacePairSpace (c2 :: rest)

/-- `'  ' in name`: does the list contain two adjacent spaces? -/
def hasDoubleSpace : List Char → Bool
  | [] => false
  | [_] => false
  | c1 :: c2 :: rest => (c1 = ' ' && c2 = ' ') || hasDoubleSpace (c2 :: rest)

theorem replacePairSpace_length_le (l : List Char) :
    (replacePairSpace l).length ≤ l.length := by
  induction l using replacePairSpace.induct with
  | case1 => simp [replacePairSpace]
  | case2 c => simp [replacePairSpace]
  | case3 c1 c2 rest h ih =>
    simp only [replacePairSpace, if_pos h, List.length_cons]
    omega
  | case4 c1 c2 rest h ih =>
    simp only [replacePairSpace, if_neg h, List.length_cons] at *
    omega

theorem replacePairSpace_length_lt (l : List Char) (h : hasDoubleSpace l = true) :
    (replacePairSpace l).length < l.length := by
  induction l using replacePairSpace.induct with
  | case1 => simp [hasDoubleSpace] at h
  | case2 c => simp [hasDoubleSpace] at h
  | case3 c1 c2 rest hsp ih =>
    simp only [replacePairSpace, if_pos hsp, List.length_cons]
    have := replacePairSpace_length_le rest
    omega
  | case4 c1 c2 rest hsp ih =>
    have hb : (c1 = ' ' && c2 = ' ') = false := by
      rcases Decidable.em (c1 = ' ') with h1 | h1 <;>
        rcases Decidable.em (c2 = ' ') with h2 | h2 <;> simp_all
    simp only [hasDoubleSpace, hb, Bool.false_or] at h
    simp only [replacePairSpace, if_neg hsp, List.length_cons]
    exact Nat.succ_lt_succ (ih h)

/-- Fuel-bounded double-space collapse loop (each pass strictly shrinks the
list, so fuel `l.length + 1` always suffices; structural, kernel-evaluable). -/
def collapseSpacesAux : Nat → List Char → List Char
  | 0, l => l
  | fuel + 1, l =>
    if hasDoubleSpace l = true then collapseSpacesAux fuel (replacePairSpace l)
    else l

/-- The parser's `while '  ' in name: name = name.replace('  ', ' ')` loop. -/
def collapseSpaces (l : List Char) : List Char :=
  collapseSpacesAux (l.length + 1) l

theorem collapseSpacesAux_no_double (fuel : Nat) (l : List Char)
    (hf : l.length < fuel) :
    hasDoubleSpace (collapseSpacesAux fuel l) = false := by
  induction fuel generalizing l with
  | zero => omega
  | succ fuel ih =>
    unfold collapseSpacesAux
    by_cases h : hasDoubleSpace l = true
    · rw [if_pos h]
      exact ih (replacePairSpace l)
        (by have := replacePairSpace_length_lt l h; omega)
    · rw [if_neg h]
      simpa using h

theorem collapseSpaces_no_double (l : List Char) :
    hasDoubleSpace (collapseSpaces l) = false :=
  collapseSpacesAux_no_double (l.length + 1) l (by omega)

theorem replacePairSpace_no_comma (l : List Char) (h : ',' ∉ l) :
    ',' ∉ replacePairSpace l := by
  induction l using replacePairSpace.induct with
  | case1 => simpa [replacePairSpace] using h
  | case2 c => simpa [replacePairSpace] using h
  | case3 c1 c2 rest hsp ih =>
    simp only [replacePairSpace, if_pos hsp]
    simp only [List.mem_cons] at h ⊢
    push_neg at h ⊢
    exact ⟨by simp, fun hc => (ih fun hm => h.2.2 hm) hc⟩
  | case4 c1 c2 rest hsp ih =>
    simp only [replacePairSpace, if_neg hsp]
    simp only [List.mem_cons] at h ⊢
    push_neg at h ⊢
    refine ⟨h.1, fun hc => ?_⟩
    have : ',' ∉ c2 :: rest := by
      simp only [List.mem_cons]; push_neg; exact ⟨h.2.1, h.2.2⟩
    exact (ih this) hc

theorem collapseSpacesAux_no_comma (fuel : Nat) (l : List Char)
    (h : ',' ∉ l) : ',' ∉ collapseSpacesAux fuel l := by
  induction fuel generalizing l with
  | zero => simpa [collapseSpacesAux] using h
  | succ fuel ih =>
    unfold collapseSpacesAux
    by_cases hd : hasDoubleSpace l = true
    · rw [if_pos hd]
      exact ih (replacePairSpace l) (replacePairSpace_no_comma l h)
    · rwa [if_neg hd]

theorem collapseSpaces_no_comma (l : List Char) (h : ',' ∉ l) :
    ',' ∉ collapseSpaces l :=
  collapseSpacesAux_no_comma (l.length + 1) l h

theorem listTrim_subset (l : List Char) : listTrim l ⊆ l := by
  intro c hc
  unfold listTrim at hc
  rw [List.mem_reverse] at hc
  have h1 := (List.dropWhile_sublist (l := (l.dropWhile pyIsSpace).reverse) pyIsSpace).mem hc
  rw [List.mem_reverse] at h1
  exact (List.dropWhile_sublist pyIsSpace).mem h1

theorem dropWhile_idem (p : Char → Bool) (m : List Char) :
    (m.dropWhile p).dropWhile p = m.dropWhile p := by
  induction m with
  | nil => rfl
  | cons c r ih =>
    by_cases h : p c
    · simpa [List.dropWhile_cons, h] using ih
    · simp [List.dropWhile_cons, h]

theorem dropWhile_head_not (p : Char → Bool) (m : List Char) (hm : m.dropWhile p = m)
    (c : Char) (r : List Char) (hcr : m = c :: r) : p c = false := by
  subst hcr
  by_cases h : p c
  · rw [List.dropWhile_cons, if_pos h] at hm
    have := (List.dropWhile_sublist (l := r) p).length_le
    have := congrArg List.length hm
    simp at this
    omega
  · simpa using h

/-- The right-trim is a prefix of the original list. -/
theorem rightTrim_prefix (p : Char → Bool) (m : List Char) :
    ((m.reverse.dropWhile p).reverse : List Char) <+: m := by
  have h : (m.reverse.dropWhile p) <:+ m.reverse := List.dropWhile_suffix p
  have h2 : (m.reverse.dropWhile p).reverse <+: m.reverse.reverse :=
    List.reverse_prefix.mpr h
  simpa using h2

/-- `str.strip()` is idempotent. -/
theorem listTrim_idem (l : List Char) : listTrim (listTrim l) = listTrim l := by
  set p := pyIsSpace
  set m := l.dropWhile p with hm
  set r := (m.reverse.dropWhile p).reverse with hr
  have hmfix : m.dropWhile p = m := dropWhile_idem p l
  have hrfix : r.dropWhile p = r := by
    cases hcr : r with
    | nil => simp [hcr]
    | cons c t =>
      have hpref : r <+: m := rightTrim_prefix p m
      obtain ⟨u, hu⟩ := hpref
      have hmc : m = c :: (t ++ u) := by rw [← hu, hcr]; simp
      have : p c = false := dropWhile_head_not p m hmfix c (t ++ u) hmc
      simp [List.dropWhile_cons, this]
  show ((r.dropWhile p).reverse.dropWhile p).reverse = r
  rw [hrfix, hr]
  simp [dropWhile_idem]

def cleanProductName (s : String) : String :=
  ⟨collapseSpaces (listTrim (commaToSpace s.data))⟩

/-! ## The Transaction Parser (`SalesDataFileHandler.parse_transactions`) -/

/-- A cleaned transaction record, as emitted by the parser.  Prices carry the
exact rational value of the parsed float. -/
structure Transaction where
  transactionID : String
  date : String
  productID : String
  productName : String
  quantity : Int
  price : ℚ
  customerID : String
  region : String
deriving DecidableEq, Repr

/-- The parser's quantity acceptance check on the comma-stripped field:
`int(s)` must succeed, `str(quantity).isdigit()` must hold and the value must
be positive. -/
def qtyCheckOK (s : String) : Bool :=
  match pyInt s with
  | some n => pyIsdigitL (pyIntRepr n).data && decide (0 < n)
  | none => false

/-- The parser's price acceptance check on the comma-stripped field:
`float(s)` must succeed, `str(price).replace('.', '', 1).isdigit()` must hold
and the value must be positive. -/
def priceCheckOK (s : String) : Bool :=
  match pyFloatParse s with
  | some f => floatReprDigitCheck f && decide (0 < f.val)
  | none => false

/-- `transaction_dict[...]` — the `i`-th stripped field of the line after
splitting on `'|'` (the dict built by `zip` with the fixed field-name
schema is positional access). -/
def lineField (line : String) (i : Nat) : String :=
  ((pySplit '|' (pyStrip line)).map pyStrip).getD i ""

/-- One iteration of the parsing loop of `parse_transactions`: `none` means
the line was skipped (empty) or rejected (counted invalid).  The checks
appear in the source's order: field count, date, quantity, price,
TransactionID prefix, CustomerID/Region non-emptiness. -/
def parseLine (line : String) : Option Transaction :=
  if pyStrip line = "" then none
  else if (pySplit '|' (pyStrip line)).length ≠ 8 then none
  else
    match parseDate (lineField line 1) with
    | none => none
    | some (y, m, d) =>
      match pyInt (pyStrip (stripCommas (lineField line 4))) with
      | none => none
      | some q =>
        if !(pyIsdigitL (pyIntRepr q).data) || q ≤ 0 then none
        else
          match pyFloatParse (pyStrip (stripCommas (lineField line 5))) with
          | none => none
          | some pf =>
            if !(floatReprDigitCheck pf) || pf.val ≤ 0 then none
            else if lineField line 0 = ""
                || !(pyStartsWith (lineField line 0) "T") then none
            else if lineField line 6 = "" || pyStrip (lineField line 6) = ""
                || lineField line 7 = "" || pyStrip (lineField line 7) = "" then none
            else some
              { transactionID := lineField line 0
                date := renderDate y m d
                productID := lineField line 2
                productName := cleanProductName (lineField line 3)
                quantity := q
                price := pf.val
                customerID := lineField line 6
                region := lineField line 7 }

/-- `parse_transactions`: parse every raw line, dropping skipped/invalid
ones (the logging counters are not part of the returned value). -/
def parse_transactions (raw_lines : List String) : List Transaction :=
  raw_lines.filterMap parseLine

/-! ## The Filter Engine (`SalesDataFileHandler.validate_and_filter`) -/

/-- A Python value that can sit in a transaction dict's `Quantity`/`Price`
slot. -/
inductive PyVal where
  | int (n : Int)
  | float (q : ℚ)
  | str (s : String)
deriving DecidableEq, Repr

/-- A transaction dict as consumed by `validate_and_filter`: each of the 8
keys may be missing; `Quantity` and `Price` may hold a value of the wrong
type.  (The ID/region fields are modelled as strings: the code only ever
checks their presence and string prefixes.) -/
structure RawTxn where
  transactionID : Option String
  date : Option String
  productID : Option String
  productName : Option String
  quantity : Option PyVal
  price : Option PyVal
  customerID : Option String
  region : Option String
deriving DecidableEq, Repr

/-- Stage A structural validation: all 8 fields present, `Quantity` a
positive `int`, `Price` a positive `float`, and the `T`/`C`/`P` ID prefixes.
The conjunction mirrors the short-circuiting checks of the loop body. -/
def stageAValid (t : RawTxn) : Bool :=
  t.transactionID.isSome && t.date.isSome && t.productID.isSome &&
  t.productName.isSome && t.quantity.isSome && t.price.isSome &&
  t.customerID.isSome && t.region.isSome &&
  (match t.quantity with
   | some (.int n) => decide (0 < n)
   | _ => false) &&
  (match t.price with
   | some (.float q) => decide (0 < q)
   | _ => false) &&
  pyStartsWith (t.transactionID.getD "") "T" &&
  pyStartsWith (t.customerID.getD "") "C" &&
  pyStartsWith (t.productID.getD "") "P"

/-- The summary dict returned by `validate_and_filter`. -/
structure Summary where
  total_input : Nat
  invalid : Nat
  filtered_by_region : Nat
  filtered_by_amount : Nat
  final_count : Nat
deriving DecidableEq, Repr

/-- `txn['Quantity'] * txn['Price']` (evaluated only on Stage-A-valid
records, where both fields are present and well-typed). -/
def txnAmount (t : RawTxn) : ℚ :=
  (match t.quantity with | some (.int n) => (n : ℚ) | _ => 0) *
  (match t.price with | some (.float q) => q | _ => 0)

/-- The amount-stage predicate: inclusive bounds, pass-through when neither
bound is given. -/
def amountMatch (minA maxA : Option ℚ) (t : RawTxn) : Bool :=
  match minA, maxA with
  | none, none => true
  | some mn, none => decide (mn ≤ txnAmount t)
  | none, some mx => decide (txnAmount t ≤ mx)
  | some mn, some mx => decide (mn ≤ txnAmount t) && decide (txnAmount t ≤ mx)

/-- `txn['Region'].lower() == region.lower()`. -/
def regionEq (region : String) (t : RawTxn) : Bool :=
  pyLower (t.region.getD "") == pyLower region

/-- Stage B, step 1: `region_filtered` — the region-stage matches (a copy of
all valid transactions when no region was given). -/
def regionFilteredL (valid : List RawTxn) (region : String) : List RawTxn :=
  if region ≠ "" then valid.filter (regionEq region) else valid

/-- Stage B, step 2: `remaining_transactions_without_region` — the valid
transactions not contained in `region_filtered` (Python `not in`, value
equality). -/
def remaining1L (valid : List RawTxn) (region : String) : List RawTxn :=
  valid.filter (fun t => !((regionFilteredL valid region).contains t))

/-- Stage B, step 3: `amount_filtered` — the amount-stage matches among the
region-stage non-matches. -/
def amountFilteredL (valid : List RawTxn) (region : String)
    (minA maxA : Option ℚ) : List RawTxn :=
  (remaining1L valid region).filter (amountMatch minA maxA)

/-- Stage B, step 4: `remaining_transactions` — what is finally returned. -/
def remaining2L (valid : List RawTxn) (region : String)
    (minA maxA : Option ℚ) : List RawTxn :=
  (remaining1L valid region).filter
    (fun t => !((amountFilteredL valid region minA maxA).contains t))

/-- `validate_and_filter(transactions, region, min_amount, max_amount)`.
`region = ""` stands for Python's `None`/`""` (treated identically by the
code); the amount bounds are `none` for Python `None`, otherwise the numeric
value (callers pass `float` or `None`).  Returns
`(result, invalid_count, summary)`. -/
def validate_and_filter (txns : List RawTxn) (region : String)
    (minA maxA : Option ℚ) : List RawTxn × Nat × Summary :=
  let valid := txns.filter stageAValid
  let invalid := txns.countP (fun t => !stageAValid t)
  if region = "" ∧ minA = none ∧ maxA = none then
    (valid, invalid, ⟨txns.length, invalid, 0, 0, valid.length⟩)
  else
    (remaining2L valid region minA maxA, invalid,
      ⟨txns.length, invalid, (regionFilteredL valid region).length,
        (amountFilteredL valid region minA maxA).length,
        (remaining2L valid region minA maxA).length⟩)

/-! ## The Line Reader (`SalesDataFileHandler.read_sales_data`) -/

/-- Outcome of opening and decoding the input file, abstracting the I/O:
* `noFile` — empty filename or missing file (or no encoding worked);
* `decodeFail partialRaw` — an exception interrupted the read loop after the
  given raw lines had been read (the `except` handlers at the bottom of
  `read_sales_data` catch it outside the `for encoding` loop, so
  `encoding_used` is still `None` and the partially accumulated list is
  returned);
* `ok enc raw` — the first attempted encoding read the whole file. -/
inductive ReadOutcome where
  | noFile
  | decodeFail (partialRaw : List String)
  | ok (enc : String) (raw : List String)
deriving DecidableEq, Repr

/-- The per-line cleaning inside the read loop: strip, drop blank lines and
lines starting with the header token. -/
def stripLines (raw : List String) : List String :=
  (raw.map pyStrip).filter
    (fun l => l ≠ "" && !(pyStartsWith l "TransactionID|"))

/-- `read_sales_data`, as a function of the read outcome.  Returns
`(lines, encoding_used)`. -/
def read_sales_data : ReadOutcome → List String × Option String
  | .noFile => ([], none)
  | .decodeFail partialRaw => (stripLines partialRaw, none)
  | .ok enc raw =>
    let lines := stripLines raw
    if lines.length < 50 then ([], some enc)
    else if 100 < lines.length then ([], some enc)
    else (lines, some enc)

/-! ## Aggregators (`DataProcessor`)

The aggregators consume parsed `Transaction` records; on such well-typed
records the defensive `int(...)`/`float(...)` conversions in the Python code
are identities and their `except` branches are unreachable, so they are not
modelled.  Python's insertion-ordered dicts are modelled by association
lists in first-occurrence key order. -/

/-- `Quantity * Price` of one record. -/
def txnRevenue (t : Transaction) : ℚ := (t.quantity : ℚ) * t.price

/-- `calculate_total_revenue`: running sum over all records. -/
def calculate_total_revenue (sales_data : List Transaction) : ℚ :=
  sales_data.foldl (fun acc t => acc + txnRevenue t) 0

/-- Dict lookup on an association list (first matching key). -/
def lookupA {β : Type} (k : String) : List (String × β) → Option β
  | [] => none
  | p :: rest => if p.1 = k then some p.2 else lookupA k rest

/-- The `if key not in dict: dict[key] = dflt` + in-place update idiom:
update the entry for `k` (all entries with that key), or append
`(k, upd dflt)` if the key is absent. -/
def bumpAssoc {β : Type} (acc : List (String × β)) (k : String)
    (upd : β → β) (dflt : β) : List (String × β) :=
  if (lookupA k acc).isSome then
    acc.map (fun p => if p.1 = k then (p.1, upd p.2) else p)
  else acc ++ [(k, upd dflt)]

/-- Grouping loop: fold the records into an insertion-ordered dict. -/
def groupFold {β : Type} (key : Transaction → String)
    (upd : Transaction → β → β) (dflt : β) (l : List Transaction) :
    List (String × β) :=
  l.foldl (fun acc t => bumpAssoc acc (key t) (upd t) dflt) []

/-- Per-region accumulator of `region_wise_sales`. -/
structure RegionAcc where
  total_sales : ℚ
  transaction_count : Nat
deriving DecidableEq, Repr

/-- Final per-region statistics of `region_wise_sales`. -/
structure RegionStats where
  total_sales : ℚ
  transaction_count : Nat
  percentage : ℚ
deriving DecidableEq, Repr

/-- Sort order used by `region_wise_sales`: by `total_sales` descending
(`sorted(..., reverse=True)`, stable). -/
def regionOrder (a b : String × RegionStats) : Prop :=
  b.2.total_sales ≤ a.2.total_sales

instance : DecidableRel regionOrder := fun a b =>
  inferInstanceAs (Decidable (b.2.total_sales ≤ a.2.total_sales))

instance : IsTotal (String × RegionStats) regionOrder :=
  ⟨fun a b => (le_total a.2.total_sales b.2.total_sales).symm⟩

instance : IsTrans (String × RegionStats) regionOrder :=
  ⟨fun _ _ _ h1 h2 => le_trans h2 h1⟩

/-- `region_wise_sales`: group by `Region`, attach the percentage of the
grand total (0 when the grand total is not positive), sort by `total_sales`
descending. -/
def regionGroups (sales_data : List Transaction) : List (String × RegionAcc) :=
  groupFold (fun t => t.region)
    (fun t st => ⟨st.total_sales + txnRevenue t, st.transaction_count + 1⟩)
    (⟨0, 0⟩ : RegionAcc) sales_data

def region_wise_sales (sales_data : List Transaction) :
    List (String × RegionStats) :=
  List.insertionSort regionOrder
    ((regionGroups sales_data).map (fun p =>
      (p.1, (⟨p.2.total_sales, p.2.transaction_count,
        if 0 < calculate_total_revenue sales_data then
          round2 (p.2.total_sales / calculate_total_revenue sales_data * 100)
        else 0⟩ : RegionStats))))

/-- Per-product accumulator of `top_selling_products`. -/
structure ProductAcc where
  total_quantity : Int
  total_revenue : ℚ
deriving DecidableEq, Repr

/-- Sort order used by `top_selling_products`: by `total_quantity`
descending. -/
def productOrder (a b : String × ProductAcc) : Prop :=
  b.2.total_quantity ≤ a.2.total_quantity

instance : DecidableRel productOrder := fun a b =>
  inferInstanceAs (Decidable (b.2.total_quantity ≤ a.2.total_quantity))

instance : IsTotal (String × ProductAcc) productOrder :=
  ⟨fun a b => (le_total a.2.total_quantity b.2.total_quantity).symm⟩

instance : IsTrans (String × ProductAcc) productOrder :=
  ⟨fun _ _ _ h1 h2 => le_trans h2 h1⟩

/-- `top_selling_products`: group by `ProductName`, sort by quantity
descending, take the first `n`, round revenue to 2 decimals. -/
def productGroups (sales_data : List Transaction) : List (String × ProductAcc) :=
  groupFold (fun t => t.productName)
    (fun t st => ⟨st.total_quantity + t.quantity, st.total_revenue + txnRevenue t⟩)
    (⟨0, 0⟩ : ProductAcc) sales_data

def top_selling_products (sales_data : List Transaction) (n : Nat := 5) :
    List (String × Int × ℚ) :=
  (((List.insertionSort productOrder (productGroups sales_data))).take n).map
    (fun p => (p.1, p.2.total_quantity, round2 p.2.total_revenue))

/-- Per-day accumulator of `find_peak_sales_day`. -/
structure DayAcc where
  revenue : ℚ
  transaction_count : Nat
deriving DecidableEq, Repr

/-- Python `max(items, key=...)` over a non-empty association list: keeps the
FIRST item whose key is maximal (later items replace only on strictly
greater revenue). -/
def pyMaxByRevenue (x : String × DayAcc) (xs : List (String × DayAcc)) :
    String × DayAcc :=
  xs.foldl (fun best y => if best.2.revenue < y.2.revenue then y else best) x

/-- `find_peak_sales_day`.  On an empty input `daily_sales` is empty, the
conditional expression yields `(None, None)`, and the subsequent
`peak_data['revenue']` subscription raises an uncaught `TypeError`, modelled
as `Except.error`. -/
def find_peak_sales_day (sales_data : List Transaction) :
    Except String (String × ℚ × Nat) :=
  match groupFold (fun t => t.date)
    (fun t st => ⟨st.revenue + txnRevenue t, st.transaction_count + 1⟩)
    (⟨0, 0⟩ : DayAcc) sales_data with
  | [] => .error "TypeError: NoneType object is not subscriptable"
  | x :: xs =>
    .ok ((pyMaxByRevenue x xs).1, round2 (pyMaxByRevenue x xs).2.revenue,
      (pyMaxByRevenue x xs).2.transaction_count)

/-! ## Characterisation of `validate_and_filter` -/

/-- The effective region-stage predicate: with a region given, the
case-insensitive match; with no region, every valid transaction counts as a
region-stage match (`region_filtered = valid_transactions.copy()`). -/
def regionMatchFull (region : String) (t : RawTxn) : Bool :=
  if region = "" then true else regionEq region t

theorem filter_not_contains_filter {α : Type} [DecidableEq α] (l : List α)
    (p : α → Bool) :
    l.filter (fun t => !((l.filter p).contains t)) = l.filter (fun t => !p t) := by
  apply List.filter_congr'
  intro a ha
  by_cases hp : p a = true
  · have hmem : a ∈ l.filter p := List.mem_filter.mpr ⟨ha, hp⟩
    have hc : (l.filter p).contains a = true := List.elem_iff.mpr hmem
    rw [hc, hp]
  · have hc : (l.filter p).contains a = false := by
      rw [Bool.eq_false_iff]
      intro hcc
      exact hp (List.mem_filter.mp (List.elem_iff.mp hcc)).2
    rw [hc, Bool.eq_false_iff.mpr hp]

theorem regionFilteredL_eq (valid : List RawTxn) (region : String) :
    regionFilteredL valid region = valid.filter (regionMatchFull region) := by
  unfold regionFilteredL
  by_cases h : region = ""
  · subst h
    rw [if_neg (by simp)]
    symm
    rw [List.filter_eq_self]
    intro a _
    simp [regionMatchFull]
  · rw [if_pos h]
    apply List.filter_congr'
    intro a _
    simp [regionMatchFull, h]

theorem remaining1L_eq (valid : List RawTxn) (region : String) :
    remaining1L valid region
      = valid.filter (fun t => !regionMatchFull region t) := by
  unfold remaining1L
  rw [regionFilteredL_eq]
  exact filter_not_contains_filter valid (regionMatchFull region)

theorem amountFilteredL_eq (valid : List RawTxn) (region : String)
    (mn mx : Option ℚ) :
    amountFilteredL valid region mn mx
      = valid.filter
          (fun a => amountMatch mn mx a && !regionMatchFull region a) := by
  unfold amountFilteredL
  rw [remaining1L_eq, List.filter_filter]

theorem remaining2L_eq (valid : List RawTxn) (region : String)
    (mn mx : Option ℚ) :
    remaining2L valid region mn mx
      = valid.filter
          (fun a => !amountMatch mn mx a && !regionMatchFull region a) := by
  unfold remaining2L amountFilteredL
  rw [filter_not_contains_filter (remaining1L valid region) (amountMatch mn mx)]
  rw [remaining1L_eq, List.filter_filter]

/-- Closed form of `validate_and_filter` when filtering is requested. -/
theorem vaf_closed_form (txns : List RawTxn) (region : String)
    (mn mx : Option ℚ) (h : ¬(region = "" ∧ mn = none ∧ mx = none)) :
    validate_and_filter txns region mn mx =
      ((txns.filter stageAValid).filter
          (fun a => !amountMatch mn mx a && !regionMatchFull region a),
        txns.countP (fun t => !stageAValid t),
        ⟨txns.length, txns.countP (fun t => !stageAValid t),
          ((txns.filter stageAValid).filter (regionMatchFull region)).length,
          ((txns.filter stageAValid).filter
            (fun a => amountMatch mn mx a && !regionMatchFull region a)).length,
          ((txns.filter stageAValid).filter
            (fun a => !amountMatch mn mx a && !regionMatchFull region a)).length⟩) := by
  unfold validate_and_filter
  rw [if_neg h, regionFilteredL_eq, amountFilteredL_eq, remaining2L_eq]

theorem vaf_summary_invariants (txns : List RawTxn) (region : String)
    (mn mx : Option ℚ) :
    (validate_and_filter txns region mn mx).2.2.invalid
        = txns.countP (fun t => !stageAValid t) ∧
    (validate_and_filter txns region mn mx).2.2.total_input = txns.length := by
  unfold validate_and_filter
  split <;> exact ⟨rfl, rfl⟩

/-- **C1.** With filtering requested, `validate_and_filter` returns exactly
the Stage-A-valid transactions matching neither the region stage nor the
amount predicate; `final_count` is the length of that list,
`filtered_by_region` counts the valid transactions matching the region
stage, and `filtered_by_amount` counts the region-non-matching transactions
matching the (inclusive) amount predicate. -/
theorem C1_filter_complement (txns : List RawTxn) (region : String)
    (mn mx : Option ℚ) (h : ¬(region = "" ∧ mn = none ∧ mx = none)) :
    (validate_and_filter txns region mn mx).1
        = (txns.filter stageAValid).filter
            (fun t => !regionMatchFull region t && !amountMatch mn mx t) ∧
    (validate_and_filter txns region mn mx).2.2.final_count
        = (validate_and_filter txns region mn mx).1.length ∧
    (validate_and_filter txns region mn mx).2.2.filtered_by_region
        = (txns.filter stageAValid).countP (regionMatchFull region) ∧
    (validate_and_filter txns region mn mx).2.2.filtered_by_amount
        = ((txns.filter stageAValid).filter
            (fun t => !regionMatchFull region t)).countP (amountMatch mn mx) := by
  rw [vaf_closed_form txns region mn mx h]
  have hcomm : (txns.filter stageAValid).filter
      (fun a => !amountMatch mn mx a && !regionMatchFull region a)
      = (txns.filter stageAValid).filter
          (fun t => !regionMatchFull region t && !amountMatch mn mx t) := by
    apply List.filter_congr'
    intro a _
    exact Bool.and_comm _ _
  refine ⟨hcomm, rfl, ?_, ?_⟩
  · exact (List.countP_eq_length_filter _ _).symm
  · show ((txns.filter stageAValid).filter
        (fun a => amountMatch mn mx a && !regionMatchFull region a)).length
      = ((txns.filter stageAValid).filter
          (fun t => !regionMatchFull region t)).countP (amountMatch mn mx)
    rw [List.countP_eq_length_filter]
    exact congrArg List.length
      (List.filter_filter (p := amountMatch mn mx)
        (fun t => !regionMatchFull region t) (txns.filter stageAValid)).symm

/-- Sample well-formed transaction dicts for concrete evaluations. -/
def sampleTxn1 : RawTxn :=
  ⟨some "T001", some "2024-12-01", some "P101", some "Laptop",
    some (.int 2), some (.float 45000), some "C001", some "North"⟩

def sampleTxn2 : RawTxn :=
  ⟨some "T002", some "2024-12-02", some "P102", some "Mouse",
    some (.int 10), some (.float 500), some "C002", some "South"⟩

/-- A transaction dict whose `TransactionID` lacks the `T` prefix. -/
def sampleBad : RawTxn :=
  ⟨some "X001", some "2024-12-01", some "P101", some "Laptop",
    some (.int 2), some (.float 45000), some "C001", some "North"⟩

theorem C1_filter_complement_witness :
    (validate_and_filter [sampleTxn1, sampleTxn2, sampleBad] "north"
        (some 6000) none).1
        = ([sampleTxn1, sampleTxn2, sampleBad].filter stageAValid).filter
            (fun t => !regionMatchFull "north" t && !amountMatch (some 6000) none t) ∧
    (validate_and_filter [sampleTxn1, sampleTxn2, sampleBad] "north"
        (some 6000) none).2.2.final_count
        = (validate_and_filter [sampleTxn1, sampleTxn2, sampleBad] "north"
            (some 6000) none).1.length ∧
    (validate_and_filter [sampleTxn1, sampleTxn2, sampleBad] "north"
        (some 6000) none).2.2.filtered_by_region
        = ([sampleTxn1, sampleTxn2, sampleBad].filter stageAValid).countP
            (regionMatchFull "north") ∧
    (validate_and_filter [sampleTxn1, sampleTxn2, sampleBad] "north"
        (some 6000) none).2.2.filtered_by_amount
        = (([sampleTxn1, sampleTxn2, sampleBad].filter stageAValid).filter
            (fun t => !regionMatchFull "north" t)).countP
              (amountMatch (some 6000) none) :=
  C1_filter_complement [sampleTxn1, sampleTxn2, sampleBad] "north"
    (some 6000) none (by simp)

/-- **C9.** With filtering requested but no region given, every Stage-A-valid
transaction counts as a region-stage match, so the returned list is empty
and `final_count = 0`. -/
theorem C9_noregion_returns_empty (txns : List RawTxn) (mn mx : Option ℚ)
    (h : ¬(mn = none ∧ mx = none)) :
    (validate_and_filter txns "" mn mx).1 = [] ∧
    (validate_and_filter txns "" mn mx).2.2.final_count = 0 ∧
    (validate_and_filter txns "" mn mx).2.2.filtered_by_region
      = (txns.filter stageAValid).length := by
  have hreq : ¬(("" : String) = "" ∧ mn = none ∧ mx = none) := by
    intro hx
    exact h ⟨hx.2.1, hx.2.2⟩
  rw [vaf_closed_form txns "" mn mx hreq]
  simp [regionMatchFull]

theorem C9_noregion_returns_empty_witness :
    (validate_and_filter [sampleTxn1, sampleTxn2, sampleBad] ""
        (some 6000) none).1 = [] ∧
    (validate_and_filter [sampleTxn1, sampleTxn2, sampleBad] ""
        (some 6000) none).2.2.final_count = 0 ∧
    (validate_and_filter [sampleTxn1, sampleTxn2, sampleBad] ""
        (some 6000) none).2.2.filtered_by_region
      = ([sampleTxn1, sampleTxn2, sampleBad].filter stageAValid).length :=
  C9_noregion_returns_empty [sampleTxn1, sampleTxn2, sampleBad]
    (some 6000) none (by simp)

/-- **C10.** Count conservation: Stage A classifies each input exactly once
(`invalid + #valid = total_input`); with filtering requested (and the valid
transactions pairwise distinct), the three summary counters partition the
valid transactions. -/
theorem C10_count_conservation (txns : List RawTxn) (region : String)
    (mn mx : Option ℚ) :
    (validate_and_filter txns region mn mx).2.2.invalid
        + (txns.filter stageAValid).length
      = (validate_and_filter txns region mn mx).2.2.total_input ∧
    (¬(region = "" ∧ mn = none ∧ mx = none) →
      (txns.filter stageAValid).Nodup →
      (validate_and_filter txns region mn mx).2.2.filtered_by_region
          + (validate_and_filter txns region mn mx).2.2.filtered_by_amount
          + (validate_and_filter txns region mn mx).2.2.final_count
        = (txns.filter stageAValid).length) := by
  obtain ⟨hinv, htot⟩ := vaf_summary_invariants txns region mn mx
  constructor
  · rw [hinv, htot, List.countP_eq_length_filter]
    have hsplit := List.length_eq_length_filter_add (l := txns) stageAValid
    omega
  · intro hreq _
    rw [vaf_closed_form txns region mn mx hreq]
    show ((txns.filter stageAValid).filter (regionMatchFull region)).length
        + ((txns.filter stageAValid).filter
            (fun a => amountMatch mn mx a && !regionMatchFull region a)).length
        + ((txns.filter stageAValid).filter
            (fun a => !amountMatch mn mx a && !regionMatchFull region a)).length
      = (txns.filter stageAValid).length
    have h1 := List.length_eq_length_filter_add
      (l := txns.filter stageAValid) (regionMatchFull region)
    have h2 := List.length_eq_length_filter_add
      (l := (txns.filter stageAValid).filter
        (fun a => !regionMatchFull region a)) (amountMatch mn mx)
    have e1 := congrArg List.length
      (List.filter_filter (p := amountMatch mn mx)
        (fun a => !regionMatchFull region a) (txns.filter stageAValid))
    have e2 := congrArg List.length
      (List.filter_filter (p := fun a => !amountMatch mn mx a)
        (fun a => !regionMatchFull region a) (txns.filter stageAValid))
    omega

theorem C10_count_conservation_witness :
    ((validate_and_filter [sampleTxn1, sampleTxn2, sampleBad] "north"
          (some 6000) none).2.2.invalid
        + ([sampleTxn1, sampleTxn2, sampleBad].filter stageAValid).length
      = (validate_and_filter [sampleTxn1, sampleTxn2, sampleBad] "north"
          (some 6000) none).2.2.total_input) ∧
    ((validate_and_filter [sampleTxn1, sampleTxn2, sampleBad] "north"
          (some 6000) none).2.2.filtered_by_region
        + (validate_and_filter [sampleTxn1, sampleTxn2, sampleBad] "north"
            (some 6000) none).2.2.filtered_by_amount
        + (validate_and_filter [sampleTxn1, sampleTxn2, sampleBad] "north"
            (some 6000) none).2.2.final_count
      = ([sampleTxn1, sampleTxn2, sampleBad].filter stageAValid).length) :=
  ⟨(C10_count_conservation [sampleTxn1, sampleTxn2, sampleBad] "north"
      (some 6000) none).1,
    (C10_count_conservation [sampleTxn1, sampleTxn2, sampleBad] "north"
      (some 6000) none).2 (by simp) (by decide)⟩

/-- **C4.** Stage A excludes a transaction (and counts it invalid) whenever
its `TransactionID`/`CustomerID`/`ProductID` lacks the `T`/`C`/`P` prefix, a
field is missing, `Quantity` is not a positive `int`, or `Price` is not a
positive `float`; such a transaction never reaches the Stage B filters or
the returned list — independently of how the parser would have treated it. -/
theorem C4_stageA_rejects (t : RawTxn)
    (h : (∃ s, t.transactionID = some s ∧ pyStartsWith s "T" = false) ∨
         (∃ s, t.customerID = some s ∧ pyStartsWith s "C" = false) ∨
         (∃ s, t.productID = some s ∧ pyStartsWith s "P" = false) ∨
         t.transactionID = none ∨ t.date = none ∨ t.productID = none ∨
         t.productName = none ∨ t.quantity = none ∨ t.price = none ∨
         t.customerID = none ∨ t.region = none ∨
         (∀ n : Int, t.quantity = some (PyVal.int n) → n ≤ 0) ∨
         (∀ q : ℚ, t.price = some (PyVal.float q) → q ≤ 0)) :
    stageAValid t = false ∧
    ∀ txns region mn mx, t ∈ txns →
      t ∉ txns.filter stageAValid ∧
      t ∉ (validate_and_filter txns region mn mx).1 ∧
      (validate_and_filter txns region mn mx).2.2.invalid
        = txns.countP (fun x => !stageAValid x) ∧
      0 < (validate_and_filter txns region mn mx).2.2.invalid := by
  have hfalse : stageAValid t = false := by
    rw [Bool.eq_false_iff]
    intro hv
    unfold stageAValid at hv
    simp only [Bool.and_eq_true, decide_eq_true_eq, Option.isSome_iff_exists] at hv
    obtain ⟨⟨⟨⟨⟨⟨⟨⟨⟨⟨⟨⟨htid, hdate⟩, hpid⟩, hpname⟩, hqty⟩, hprice⟩, hcid⟩,
      hreg⟩, hqpos⟩, hppos⟩, htpre⟩, hcpre⟩, hppre⟩ := hv
    rcases h with ⟨s, hs, hsw⟩ | ⟨s, hs, hsw⟩ | ⟨s, hs, hsw⟩ | hn | hn | hn
      | hn | hn | hn | hn | hn | hq | hp
    · rw [hs] at htpre; simp [hsw] at htpre
    · rw [hs] at hcpre; simp [hsw] at hcpre
    · rw [hs] at hppre; simp [hsw] at hppre
    · obtain ⟨x, hx⟩ := htid; rw [hn] at hx; cases hx
    · obtain ⟨x, hx⟩ := hdate; rw [hn] at hx; cases hx
    · obtain ⟨x, hx⟩ := hpid; rw [hn] at hx; cases hx
    · obtain ⟨x, hx⟩ := hpname; rw [hn] at hx; cases hx
    · obtain ⟨x, hx⟩ := hqty; rw [hn] at hx; cases hx
    · obtain ⟨x, hx⟩ := hprice; rw [hn] at hx; cases hx
    · obtain ⟨x, hx⟩ := hcid; rw [hn] at hx; cases hx
    · obtain ⟨x, hx⟩ := hreg; rw [hn] at hx; cases hx
    · revert hqpos
      cases hqv : t.quantity with
      | none => simp
      | some v =>
        cases v with
        | int n => have := hq n hqv; simp; omega
        | float q2 => simp
        | str s2 => simp
    · revert hppos
      cases hpv : t.price with
      | none => simp
      | some v =>
        cases v with
        | int n => simp
        | float q2 => have := hp q2 hpv; simpa using this
        | str s2 => simp
  refine ⟨hfalse, fun txns region mn mx hmem => ?_⟩
  have hnotfilter : t ∉ txns.filter stageAValid := by
    intro hc
    have := (List.mem_filter.mp hc).2
    rw [hfalse] at this
    cases this
  have hinv := (vaf_summary_invariants txns region mn mx).1
  refine ⟨hnotfilter, ?_, hinv, ?_⟩
  · by_cases hreq : region = "" ∧ mn = none ∧ mx = none
    · unfold validate_and_filter
      rw [if_pos hreq]
      exact hnotfilter
    · rw [vaf_closed_form txns region mn mx hreq]
      intro hc
      exact hnotfilter (List.mem_filter.mp hc).1
  · rw [hinv]
    rw [List.countP_pos]
    exact ⟨t, hmem, by rw [hfalse]; rfl⟩

theorem C4_stageA_rejects_witness :
    stageAValid sampleBad = false ∧
    ((sampleBad ∉ [sampleTxn1, sampleBad].filter stageAValid) ∧
      sampleBad ∉ (validate_and_filter [sampleTxn1, sampleBad] "north"
        (some 6000) none).1 ∧
      (validate_and_filter [sampleTxn1, sampleBad] "north"
          (some 6000) none).2.2.invalid
        = [sampleTxn1, sampleBad].countP (fun x => !stageAValid x) ∧
      0 < (validate_and_filter [sampleTxn1, sampleBad] "north"
          (some 6000) none).2.2.invalid) :=
  have h := C4_stageA_rejects sampleBad (Or.inl ⟨"X001", rfl, by decide⟩)
  ⟨h.1, h.2 [sampleTxn1, sampleBad] "north" (some 6000) none (by simp)⟩

/-! ## C5: the Line Reader's count bounds -/

/-- **C5 (amended).** For every successfully read file whose stripped
data-line count is outside `[50, 100]`, `read_sales_data` returns an empty
list together with the encoding used; the encoding component is `none`
exactly when no complete read succeeded.  (The original claim's final
clause — that a non-empty list with out-of-range length can never be
returned — fails when an exception interrupts the read loop, see the
counterexample.) -/
theorem C5_count_bounds (enc : String) (raw : List String)
    (h : (stripLines raw).length < 50 ∨ 100 < (stripLines raw).length) :
    read_sales_data (.ok enc raw) = ([], some enc) ∧
    ∀ o : ReadOutcome, (read_sales_data o).2 = none ↔
      (o = .noFile ∨ ∃ p, o = .decodeFail p) := by
  constructor
  · rcases h with h | h
    · simp only [read_sales_data]
      rw [if_pos h]
    · simp only [read_sales_data]
      rw [if_neg (by omega), if_pos h]
  · intro o
    cases o with
    | noFile => simp [read_sales_data]
    | decodeFail p => simp [read_sales_data]
    | ok e r =>
      simp only [read_sales_data]
      constructor
      · intro hc
        by_cases h1 : (stripLines r).length < 50
        · rw [if_pos h1] at hc; cases hc
        · rw [if_neg h1] at hc
          by_cases h2 : 100 < (stripLines r).length
          · rw [if_pos h2] at hc; cases hc
          · rw [if_neg h2] at hc; cases hc
      · intro hc
        rcases hc with hc | ⟨p, hc⟩ <;> cases hc

/-- **C5, counterexample to the original final clause.**  A decode error
interrupting the read loop (caught only by the outer `except` handlers)
makes `read_sales_data` return the partially accumulated, already stripped
lines — here a single line, a non-empty list of length 1 ∉ [50, 100] —
paired with `encoding_used = None`. -/
theorem C5_count_bounds_counterexample :
    read_sales_data (.decodeFail ["T9|x"]) = (["T9|x"], none) ∧
    (read_sales_data (.decodeFail ["T9|x"])).1 ≠ [] ∧
    (read_sales_data (.decodeFail ["T9|x"])).1.length = 1 := by
  refine ⟨?_, by decide, by decide⟩
  decide

theorem C5_count_bounds_witness :
    ((stripLines ["T9|x"]).length < 50 ∨ 100 < (stripLines ["T9|x"]).length) ∧
    (read_sales_data (.ok "utf-8" ["T9|x"]) = ([], some "utf-8") ∧
      ∀ o : ReadOutcome, (read_sales_data o).2 = none ↔
        (o = .noFile ∨ ∃ p, o = .decodeFail p)) :=
  ⟨Or.inl (by decide), C5_count_bounds "utf-8" ["T9|x"] (Or.inl (by decide))⟩

/-! ## Digit and repr lemmas -/

theorem digitChar_isDigit (n : Nat) (h : n < 10) :
    (Nat.digitChar n).isDigit = true := by
  interval_cases n <;> decide

theorem natDigitsAux_all_digit (fuel n : Nat) :
    ∀ c ∈ natDigitsAux fuel n, c.isDigit = true := by
  induction fuel generalizing n with
  | zero => intro c hc; cases hc
  | succ fuel ih =>
    intro c hc
    unfold natDigitsAux at hc
    by_cases h : n < 10
    · rw [if_pos h, List.mem_singleton] at hc
      exact hc ▸ digitChar_isDigit n h
    · rw [if_neg h] at hc
      rcases List.mem_append.mp hc with hc | hc
      · exact ih (n / 10) c hc
      · rw [List.mem_singleton] at hc
        exact hc ▸ digitChar_isDigit (n % 10) (Nat.mod_lt n (by omega))

theorem natDigits_all_digit (n : Nat) :
    ∀ c ∈ natDigits n, c.isDigit = true :=
  natDigitsAux_all_digit (n + 1) n

theorem natDigits_ne_nil (n : Nat) : natDigits n ≠ [] := by
  unfold natDigits natDigitsAux
  by_cases h : n < 10
  · rw [if_pos h]; simp
  · rw [if_neg h]; simp

theorem reprDigits_all_digit (n : Nat) :
    ∀ c ∈ reprDigits n, c.isDigit = true :=
  natDigits_all_digit (stripZeros n).1

theorem reprDigits_ne_nil (n : Nat) : reprDigits n ≠ [] :=
  natDigits_ne_nil (stripZeros n).1

theorem pyIntRepr_isdigit_of_pos (n : Int) (h : 0 < n) :
    pyIsdigitL (pyIntRepr n).data = true := by
  unfold pyIntRepr
  rw [if_neg (by omega)]
  show pyIsdigitL (natDigits n.natAbs) = true
  unfold pyIsdigitL
  rw [Bool.and_eq_true]
  constructor
  · simpa using natDigits_ne_nil n.natAbs
  · rw [List.all_eq_true]
    exact natDigits_all_digit n.natAbs

theorem removeFirstDot_append_no_dot (a b : List Char) (h : '.' ∉ a) :
    removeFirstDot (a ++ '.' :: b) = a ++ b := by
  induction a with
  | nil => simp [removeFirstDot]
  | cons c r ih =>
    have hc : c ≠ '.' := fun hx => h (hx ▸ List.mem_cons_self c r)
    have hr : '.' ∉ r := fun hx => h (List.mem_cons_of_mem c hx)
    show removeFirstDot (c :: (r ++ '.' :: b)) = c :: (r ++ b)
    unfold removeFirstDot
    rw [if_neg hc, ih hr]

theorem mem_removeFirstDot (l : List Char) (c : Char) (hc : c ∈ l)
    (hne : c ≠ '.') : c ∈ removeFirstDot l := by
  induction l with
  | nil => cases hc
  | cons d r ih =>
    rw [List.mem_cons] at hc
    unfold removeFirstDot
    by_cases hd : d = '.'
    · rw [if_pos hd]
      rcases hc with hc | hc
      · exact absurd (hc.trans hd) hne
      · exact hc
    · rw [if_neg hd]
      rcases hc with hc | hc
      · exact hc ▸ List.mem_cons_self c (removeFirstDot r)
      · exact List.mem_cons_of_mem d (ih hc)

theorem tenPow_pos (k : Nat) : 0 < tenPow k := by
  induction k with
  | zero => decide
  | succ k ih => unfold tenPow; omega

/-- Positivity of the modelled float value is positivity of its mantissa. -/
theorem DecFloat.val_pos (f : DecFloat) : 0 < f.val ↔ 0 < f.mantissa := by
  unfold DecFloat.val
  by_cases h : 0 ≤ f.exp10
  · rw [if_pos h]
    rw [show ((0 : ℚ) = ((0 : ℤ) : ℚ)) by norm_num, Int.cast_lt]
    have ht := tenPow_pos f.exp10.toNat
    constructor
    · intro hx
      by_contra hm
      push_neg at hm
      nlinarith
    · intro hm
      exact mul_pos hm ht
  · rw [if_neg h]
    have ht := tenPow_pos (-f.exp10).toNat
    have htq : (0 : ℚ) < ((tenPow (-f.exp10).toNat : ℤ) : ℚ) := by
      exact_mod_cast ht
    rw [div_pos_iff]
    constructor
    · rintro (⟨hm, _⟩ | ⟨_, hd⟩)
      · exact_mod_cast hm
      · exact absurd htq (not_lt.mpr hd.le)
    · intro hm
      exact Or.inl ⟨by exact_mod_cast hm, htq⟩

theorem pyIsdigitL_true_of (l : List Char) (hne : l ≠ [])
    (hall : ∀ c ∈ l, c.isDigit = true) : pyIsdigitL l = true := by
  unfold pyIsdigitL
  rw [Bool.and_eq_true]
  exact ⟨by simpa using hne, List.all_eq_true.mpr hall⟩

theorem dot_not_mem_of_all_digit (l : List Char)
    (hall : ∀ c ∈ l, c.isDigit = true) : '.' ∉ l := by
  intro hmem
  have := hall '.' hmem
  simp at this

/-- The parser's price digit check passes on a positive float exactly when
CPython renders it positionally, i.e. when its decimal exponent lies in
`[-4, 16)`. -/
theorem floatReprDigitCheck_of_pos (f : DecFloat) (h : 0 < f.mantissa) :
    floatReprDigitCheck f = true ↔ (-4 ≤ decExp f ∧ decExp f < 16) := by
  have hne0 : ¬ f.mantissa = 0 := by omega
  have hnlt : ¬ f.mantissa < 0 := by omega
  unfold floatReprDigitCheck pyFloatRepr
  rw [if_neg hne0, if_neg hnlt]
  show pyIsdigitL (removeFirstDot (posRepr f.mantissa.natAbs f.exp10)) = true
    ↔ (-4 ≤ decExpOf f.mantissa.natAbs f.exp10
        ∧ decExpOf f.mantissa.natAbs f.exp10 < 16)
  set n := f.mantissa.natAbs with hn
  set e := f.exp10 with he
  have hdigit := reprDigits_all_digit n
  have hnil := reprDigits_ne_nil n
  unfold posRepr
  by_cases hin : -4 ≤ decExpOf n e ∧ decExpOf n e < 16
  · rw [if_pos hin]
    refine iff_of_true ?_ hin
    by_cases hb1 : ((reprDigits n).length : Int) - 1 ≤ decExpOf n e
    · rw [if_pos hb1]
      have hall2 : ∀ c ∈ reprDigits n
          ++ List.replicate (decExpOf n e - (((reprDigits n).length : Int) - 1)).toNat '0',
          c.isDigit = true := by
        intro c hc
        rcases List.mem_append.mp hc with hc | hc
        · exact hdigit c hc
        · rw [List.eq_of_mem_replicate hc]; decide
      rw [show reprDigits n
            ++ List.replicate (decExpOf n e - (((reprDigits n).length : Int) - 1)).toNat '0'
            ++ ['.', '0']
          = (reprDigits n
              ++ List.replicate (decExpOf n e - (((reprDigits n).length : Int) - 1)).toNat '0')
            ++ ('.' :: ['0']) from by simp]
      rw [removeFirstDot_append_no_dot _ _ (dot_not_mem_of_all_digit _ hall2)]
      refine pyIsdigitL_true_of _ (by simp) ?_
      intro c hc
      rcases List.mem_append.mp hc with hc | hc
      · exact hall2 c hc
      · rw [List.mem_singleton] at hc
        rw [hc]; decide
    · rw [if_neg hb1]
      by_cases hb2 : 0 ≤ decExpOf n e
      · rw [if_pos hb2]
        have htake : ∀ c ∈ (reprDigits n).take ((decExpOf n e).toNat + 1),
            c.isDigit = true := fun c hc => hdigit c (List.mem_of_mem_take hc)
        rw [show (reprDigits n).take ((decExpOf n e).toNat + 1) ++ ['.']
              ++ (reprDigits n).drop ((decExpOf n e).toNat + 1)
            = (reprDigits n).take ((decExpOf n e).toNat + 1)
              ++ ('.' :: (reprDigits n).drop ((decExpOf n e).toNat + 1)) from by simp]
        rw [removeFirstDot_append_no_dot _ _ (dot_not_mem_of_all_digit _ htake)]
        rw [List.take_append_drop]
        exact pyIsdigitL_true_of _ hnil hdigit
      · rw [if_neg hb2]
        rw [show ['0', '.'] ++ List.replicate (-(decExpOf n e) - 1).toNat '0'
              ++ reprDigits n
            = ['0'] ++ ('.' :: (List.replicate (-(decExpOf n e) - 1).toNat '0'
              ++ reprDigits n)) from by simp]
        rw [removeFirstDot_append_no_dot _ _ (by decide)]
        refine pyIsdigitL_true_of _ (by simp) ?_
        intro c hc
        rcases List.mem_append.mp hc with hc | hc
        · rw [List.mem_singleton] at hc; rw [hc]; decide
        · rcases List.mem_append.mp hc with hc | hc
          · rw [List.eq_of_mem_replicate hc]; decide
          · exact hdigit c hc
  · rw [if_neg hin]
    refine iff_of_false ?_ hin
    intro htrue
    have hmem : 'e' ∈ (reprDigits n).take 1
        ++ (if 1 < (reprDigits n).length then '.' :: (reprDigits n).drop 1 else [])
        ++ ['e'] ++ (if decExpOf n e < 0 then ['-'] else ['+'])
        ++ pad2 (natDigits (decExpOf n e).natAbs) := by
      simp [List.mem_append]
    have hmem2 := mem_removeFirstDot _ 'e' hmem (by decide)
    unfold pyIsdigitL at htrue
    rw [Bool.and_eq_true, List.all_eq_true] at htrue
    have := htrue.2 'e' hmem2
    simp at this

theorem qtyCheckOK_iff (s : String) :
    qtyCheckOK s = true ↔ ∃ n, pyInt s = some n ∧ 0 < n := by
  unfold qtyCheckOK
  cases hp : pyInt s with
  | none => simp
  | some n =>
    rw [Bool.and_eq_true, decide_eq_true_eq]
    constructor
    · rintro ⟨_, hpos⟩
      exact ⟨n, rfl, hpos⟩
    · rintro ⟨m, hm, hpos⟩
      obtain rfl : n = m := Option.some_injective _ hm
      exact ⟨pyIntRepr_isdigit_of_pos n hpos, hpos⟩

theorem priceCheckOK_iff (s : String) :
    priceCheckOK s = true ↔
      ∃ f, pyFloatParse s = some f ∧ 0 < f.val
        ∧ -4 ≤ decExp f ∧ decExp f < 16 := by
  unfold priceCheckOK
  cases hp : pyFloatParse s with
  | none => simp
  | some f =>
    rw [Bool.and_eq_true, decide_eq_true_eq]
    constructor
    · rintro ⟨hck, hpos⟩
      exact ⟨f, rfl, hpos,
        (floatReprDigitCheck_of_pos f ((DecFloat.val_pos f).mp hpos)).mp hck⟩
    · rintro ⟨g, hg, hpos, hrange⟩
      obtain rfl : f = g := Option.some_injective _ hg
      exact ⟨(floatReprDigitCheck_of_pos f
        ((DecFloat.val_pos f).mp hpos)).mpr hrange, hpos⟩

/-- **C3 (amended).** The parser's quantity check accepts exactly the
comma-stripped strings parsing to a positive integer; its price check
accepts exactly the comma-stripped strings parsing to a positive float whose
decimal exponent lies in `[-4, 16)` (i.e. whose `str()` rendering is
positional).  A positive float rendered in scientific notation — value below
`1e-4` or at least `1e16` — is rejected despite being positive. -/
theorem C3_numeric_checks (s : String) :
    (qtyCheckOK s = true ↔ ∃ n, pyInt s = some n ∧ 0 < n) ∧
    (priceCheckOK s = true ↔
      ∃ f, pyFloatParse s = some f ∧ 0 < f.val
        ∧ -4 ≤ decExp f ∧ decExp f < 16) :=
  ⟨qtyCheckOK_iff s, priceCheckOK_iff s⟩

/-- **C3, counterexample to the original claim.** `"0.00001"` parses as the
positive float `1e-05`, yet the price check rejects it, because
`str(1e-05) = "1e-05"` fails the digit test. -/
theorem C3_numeric_checks_counterexample :
    pyFloatParse "0.00001" = some ⟨1, -5⟩ ∧
    0 < (DecFloat.mk 1 (-5)).val ∧
    priceCheckOK "0.00001" = false :=
  ⟨by decide, (DecFloat.val_pos ⟨1, -5⟩).mpr (by decide), by decide⟩

theorem C3_numeric_checks_witness :
    (qtyCheckOK "07" = true ↔ ∃ n, pyInt "07" = some n ∧ 0 < n) ∧
    (priceCheckOK "45000.0" = true ↔
      ∃ f, pyFloatParse "45000.0" = some f ∧ 0 < f.val
        ∧ -4 ≤ decExp f ∧ decExp f < 16) :=
  ⟨(C3_numeric_checks "07").1, (C3_numeric_checks "45000.0").2⟩

/-! ## C2: valid lines parse to exactly one cleaned Transaction -/

theorem pyStrip_idem (s : String) : pyStrip (pyStrip s) = pyStrip s :=
  congrArg String.mk (listTrim_idem s.data)

theorem getD_map_pyStrip (l : List String) (i : Nat) :
    pyStrip ((l.map pyStrip).getD i "") = (l.map pyStrip).getD i "" := by
  induction l generalizing i with
  | nil => cases i <;> rfl
  | cons s r ih =>
    cases i with
    | zero => exact pyStrip_idem s
    | succ j => exact ih j

theorem lineField_strip (line : String) (i : Nat) :
    pyStrip (lineField line i) = lineField line i :=
  getD_map_pyStrip (pySplit '|' (pyStrip line)) i

theorem commaToSpace_no_comma (l : List Char) : ',' ∉ commaToSpace l := by
  intro hmem
  obtain ⟨c, _, hc⟩ := List.mem_map.mp hmem
  by_cases h : c = ','
  · rw [if_pos h] at hc
    cases hc
  · rw [if_neg h] at hc
    exact h hc

theorem cleanProductName_no_comma (s : String) :
    ',' ∉ (cleanProductName s).data := by
  show ',' ∉ collapseSpaces (listTrim (commaToSpace s.data))
  apply collapseSpaces_no_comma
  intro hmem
  exact commaToSpace_no_comma s.data (listTrim_subset _ hmem)

set_option maxHeartbeats 1000000 in
/-- **C2 (amended).** Every raw line that splits into exactly 8 fields with a
parseable `YYYY-MM-DD` date, a positive integer quantity, a positive price
whose float rendering is positional (decimal exponent in `[-4, 16)`), a
non-empty `T`-prefixed TransactionID and non-empty CustomerID/Region, is
parsed to exactly one Transaction, whose date is re-rendered canonically and
whose ProductName has no commas and no run of two or more spaces.  (The
positional-rendering condition on the price is forced by the
counterexample: the original claim omitted it.) -/
theorem C2_parser_valid_line (line : String)
    (h8 : (pySplit '|' (pyStrip line)).length = 8)
    (hdate : ∃ y m d, parseDate (lineField line 1) = some (y, m, d))
    (hqty : ∃ n, pyInt (pyStrip (stripCommas (lineField line 4))) = some n ∧ 0 < n)
    (hprice : ∃ pf, pyFloatParse (pyStrip (stripCommas (lineField line 5))) = some pf
      ∧ 0 < pf.val ∧ -4 ≤ decExp pf ∧ decExp pf < 16)
    (htid : lineField line 0 ≠ "" ∧ pyStartsWith (lineField line 0) "T" = true)
    (hcid : lineField line 6 ≠ "") (hreg : lineField line 7 ≠ "") :
    ∃ t, parseLine line = some t ∧
      (∀ y m d, parseDate (lineField line 1) = some (y, m, d) →
        t.date = renderDate y m d) ∧
      (',' ∉ t.productName.data) ∧
      hasDoubleSpace t.productName.data = false ∧
      (∀ pre post, parse_transactions (pre ++ line :: post)
        = parse_transactions pre ++ t :: parse_transactions post) := by
  obtain ⟨y, m, d, hdate⟩ := hdate
  obtain ⟨q, hq, hqpos⟩ := hqty
  obtain ⟨pf, hpf, hpfpos, hr1, hr2⟩ := hprice
  have hne : ¬ (pyStrip line = "") := by
    intro he
    rw [he] at h8
    have h1 : (pySplit '|' "").length = 1 := by decide
    omega
  have hlen : ¬ ((pySplit '|' (pyStrip line)).length ≠ 8) := not_ne_iff.mpr h8
  have hqdig : pyIsdigitL (pyIntRepr q).data = true := pyIntRepr_isdigit_of_pos q hqpos
  have hqn : ¬ (q ≤ 0) := by omega
  have hpfm : 0 < pf.mantissa := (DecFloat.val_pos pf).mp hpfpos
  have hpfdig : floatReprDigitCheck pf = true :=
    (floatReprDigitCheck_of_pos pf hpfm).mpr ⟨hr1, hr2⟩
  have hpfn : ¬ (pf.val ≤ 0) := not_le.mpr hpfpos
  have hs6 : ¬ (pyStrip (lineField line 6) = "") := by
    rw [lineField_strip]; exact hcid
  have hs7 : ¬ (pyStrip (lineField line 7) = "") := by
    rw [lineField_strip]; exact hreg
  have hline : parseLine line = some
      { transactionID := lineField line 0
        date := renderDate y m d
        productID := lineField line 2
        productName := cleanProductName (lineField line 3)
        quantity := q
        price := pf.val
        customerID := lineField line 6
        region := lineField line 7 } := by
    simp only [parseLine, hne, hlen, hdate, hq, hpf, hqdig, hqn, hpfdig, hpfn,
      htid.1, htid.2, hcid, hreg, hs6, hs7, Bool.not_true, Bool.false_or,
      decide_False, if_false, ite_false, if_true, ite_true, not_false_iff,
      Bool.or_false, Bool.or_self]
    rfl
  refine ⟨_, hline, ?_, cleanProductName_no_comma _, collapseSpaces_no_double _,
    ?_⟩
  · intro y2 m2 d2 h2
    rw [hdate] at h2
    injection h2 with h3
    cases h3
    rfl
  · intro pre post
    unfold parse_transactions
    rw [List.filterMap_append]
    simp [List.filterMap_cons, hline]

/-- **C2, counterexample to the original claim.**  This line satisfies every
hypothesis of the original claim — 8 fields, parseable date, positive
integer quantity, positive price `0.00001`, `T`-prefixed TransactionID,
non-empty CustomerID and Region — yet the parser emits no Transaction,
because `str(1e-05)` fails the price digit check. -/
theorem C2_parser_valid_line_counterexample :
    (pySplit '|' (pyStrip "T001|2024-12-01|P101|Laptop|2|0.00001|C001|North")).length = 8 ∧
    parseDate (lineField "T001|2024-12-01|P101|Laptop|2|0.00001|C001|North" 1)
      = some (2024, 12, 1) ∧
    pyInt (pyStrip (stripCommas
      (lineField "T001|2024-12-01|P101|Laptop|2|0.00001|C001|North" 4))) = some 2 ∧
    pyFloatParse (pyStrip (stripCommas
      (lineField "T001|2024-12-01|P101|Laptop|2|0.00001|C001|North" 5)))
      = some ⟨1, -5⟩ ∧
    0 < (DecFloat.mk 1 (-5)).val ∧
    lineField "T001|2024-12-01|P101|Laptop|2|0.00001|C001|North" 0 ≠ "" ∧
    pyStartsWith (lineField "T001|2024-12-01|P101|Laptop|2|0.00001|C001|North" 0) "T"
      = true ∧
    lineField "T001|2024-12-01|P101|Laptop|2|0.00001|C001|North" 6 ≠ "" ∧
    lineField "T001|2024-12-01|P101|Laptop|2|0.00001|C001|North" 7 ≠ "" ∧
    parse_transactions ["T001|2024-12-01|P101|Laptop|2|0.00001|C001|North"] = [] :=
  ⟨by decide, by decide, by decide, by decide,
    (DecFloat.val_pos ⟨1, -5⟩).mpr (by decide),
    by decide, by decide, by decide, by decide, by decide⟩

theorem C2_parser_valid_line_witness :
    ∃ t, parseLine "T001|2024-12-01|P101|Laptop|2|45000.0|C001|North" = some t ∧
      (∀ y m d, parseDate (lineField "T001|2024-12-01|P101|Laptop|2|45000.0|C001|North" 1)
          = some (y, m, d) → t.date = renderDate y m d) ∧
      (',' ∉ t.productName.data) ∧
      hasDoubleSpace t.productName.data = false ∧
      (∀ pre post,
        parse_transactions (pre ++ "T001|2024-12-01|P101|Laptop|2|45000.0|C001|North" :: post)
        = parse_transactions pre ++ t ::
            parse_transactions post) :=
  C2_parser_valid_line "T001|2024-12-01|P101|Laptop|2|45000.0|C001|North"
    (by decide) ⟨2024, 12, 1, by decide⟩ ⟨2, by decide, by decide⟩
    ⟨⟨450000, -1⟩, by decide, (DecFloat.val_pos ⟨450000, -1⟩).mpr (by decide),
      by decide, by decide⟩
    ⟨by decide, by decide⟩ (by decide) (by decide)

/-! ## Grouping-dict lemmas -/

section GroupingLemmas

variable {β : Type}

theorem lookupA_map_update (acc : List (String × β)) (k : String) (u : β → β) :
    lookupA k (acc.map (fun p => if p.1 = k then (p.1, u p.2) else p))
      = (lookupA k acc).map u := by
  induction acc with
  | nil => rfl
  | cons p r ih =>
    simp only [List.map_cons]
    by_cases h : p.1 = k
    · rw [if_pos h]
      simp only [lookupA]
      rw [if_pos h, if_pos h]
      rfl
    · rw [if_neg h]
      simp only [lookupA]
      rw [if_neg h, if_neg h]
      exact ih

theorem lookupA_map_update_ne (acc : List (String × β)) (k k2 : String)
    (hne : k2 ≠ k) (u : β → β) :
    lookupA k2 (acc.map (fun p => if p.1 = k then (p.1, u p.2) else p))
      = lookupA k2 acc := by
  induction acc with
  | nil => rfl
  | cons p r ih =>
    simp only [List.map_cons]
    by_cases h : p.1 = k
    · have h2 : ¬ (p.1 = k2) := by
        rw [h]
        exact fun hx => hne hx.symm
      rw [if_pos h]
      simp only [lookupA]
      rw [if_neg h2, if_neg h2]
      exact ih
    · rw [if_neg h]
      simp only [lookupA]
      by_cases h2 : p.1 = k2
      · simp [h2]
      · simp [h2, ih]

theorem lookupA_append_single (acc : List (String × β)) (k k2 : String) (b : β) :
    lookupA k (acc ++ [(k2, b)])
      = match lookupA k acc with
        | some x => some x
        | none => if k2 = k then some b else none := by
  induction acc with
  | nil => simp [lookupA]
  | cons p r ih =>
    simp only [List.cons_append, lookupA]
    by_cases h : p.1 = k
    · simp [h]
    · simp [h, ih]

theorem lookupA_eq_none_iff (acc : List (String × β)) (k : String) :
    lookupA k acc = none ↔ k ∉ acc.map Prod.fst := by
  induction acc with
  | nil => simp [lookupA]
  | cons p r ih =>
    simp only [lookupA, List.map_cons, List.mem_cons]
    by_cases h : p.1 = k
    · rw [if_pos h]
      simp [h]
    · rw [if_neg h]
      rw [ih]
      simp only [not_or]
      constructor
      · intro hx
        exact ⟨fun he => h he.symm, hx⟩
      · intro hx
        exact hx.2

theorem lookupA_bump_self (acc : List (String × β)) (k : String) (u : β → β)
    (d : β) :
    lookupA k (bumpAssoc acc k u d) = some (u ((lookupA k acc).getD d)) := by
  unfold bumpAssoc
  by_cases h : (lookupA k acc).isSome
  · rw [if_pos h, lookupA_map_update]
    obtain ⟨b, hb⟩ := Option.isSome_iff_exists.mp h
    rw [hb]
    rfl
  · rw [if_neg h, lookupA_append_single]
    have hnone : lookupA k acc = none := Option.not_isSome_iff_eq_none.mp h
    rw [hnone]
    simp

theorem lookupA_bump_ne (acc : List (String × β)) (k k2 : String)
    (hne : k2 ≠ k) (u : β → β) (d : β) :
    lookupA k2 (bumpAssoc acc k u d) = lookupA k2 acc := by
  unfold bumpAssoc
  by_cases h : (lookupA k acc).isSome
  · rw [if_pos h]
    exact lookupA_map_update_ne acc k k2 hne u
  · rw [if_neg h, lookupA_append_single]
    cases hl : lookupA k2 acc with
    | some x => rfl
    | none =>
      simp only [hl]
      rw [if_neg (fun hx : k = k2 => hne hx.symm)]

theorem nodupKeys_bump (acc : List (String × β)) (k : String) (u : β → β)
    (d : β) (hnd : (acc.map Prod.fst).Nodup) :
    ((bumpAssoc acc k u d).map Prod.fst).Nodup := by
  unfold bumpAssoc
  by_cases h : (lookupA k acc).isSome
  · rw [if_pos h]
    have heq : (acc.map (fun p => if p.1 = k then (p.1, u p.2) else p)).map Prod.fst
        = acc.map Prod.fst := by
      rw [List.map_map]
      apply List.map_congr_left
      intro p _
      by_cases hp : p.1 = k <;> simp [hp]
    rw [heq]
    exact hnd
  · rw [if_neg h]
    rw [List.map_append]
    have hnotmem : k ∉ acc.map Prod.fst :=
      (lookupA_eq_none_iff acc k).mp (Option.not_isSome_iff_eq_none.mp h)
    simp only [List.map_cons, List.map_nil]
    rw [List.nodup_append]
    refine ⟨hnd, List.nodup_singleton k, ?_⟩
    intro a ha hb
    rw [List.mem_singleton] at hb
    exact hnotmem (hb ▸ ha)

end GroupingLemmas

section GroupFoldLemmas

variable {β : Type} (key : Transaction → String) (upd : Transaction → β → β)
variable (dflt : β)

theorem nodupKeys_foldgroup (l : List Transaction) :
    ∀ acc : List (String × β), (acc.map Prod.fst).Nodup →
      ((l.foldl (fun a t => bumpAssoc a (key t) (upd t) dflt) acc).map
        Prod.fst).Nodup := by
  induction l with
  | nil => intro acc h; exact h
  | cons t l ih =>
    intro acc h
    exact ih _ (nodupKeys_bump acc (key t) (upd t) dflt h)

theorem nodupKeys_groupFold (l : List Transaction) :
    ((groupFold key upd dflt l).map Prod.fst).Nodup :=
  nodupKeys_foldgroup key upd dflt l [] (by simp)

theorem lookupA_foldgroup (k : String) (l : List Transaction) :
    ∀ acc : List (String × β),
      lookupA k (l.foldl (fun a t => bumpAssoc a (key t) (upd t) dflt) acc)
        = match lookupA k acc with
          | some b =>
            some ((l.filter (fun t => key t = k)).foldl (fun b t => upd t b) b)
          | none =>
            if l.any (fun t => key t = k) then
              some ((l.filter (fun t => key t = k)).foldl
                (fun b t => upd t b) dflt)
            else none := by
  induction l with
  | nil =>
    intro acc
    cases hacc : lookupA k acc <;> simp [hacc]
  | cons t l ih =>
    intro acc
    rw [List.foldl_cons, ih]
    by_cases hk : key t = k
    · rw [hk, lookupA_bump_self]
      cases hacc : lookupA k acc with
      | some b =>
        simp only [hacc, Option.getD_some]
        rw [List.filter_cons_of_pos (by simpa using hk)]
        rw [List.foldl_cons]
      | none =>
        simp only [hacc, Option.getD_none]
        rw [List.filter_cons_of_pos (by simpa using hk)]
        rw [List.any_cons]
        simp only [hk, decide_True, Bool.true_or, if_true]
        rw [List.foldl_cons]
    · rw [lookupA_bump_ne _ _ _ (fun hx : k = key t => hk hx.symm)]
      rw [List.filter_cons_of_neg (by simpa using hk)]
      rw [List.any_cons]
      simp only [hk, decide_False, Bool.false_or]

theorem lookupA_groupFold (k : String) (l : List Transaction) :
    lookupA k (groupFold key upd dflt l)
      = if l.any (fun t => key t = k) then
          some ((l.filter (fun t => key t = k)).foldl (fun b t => upd t b) dflt)
        else none := by
  unfold groupFold
  rw [lookupA_foldgroup]
  rfl

theorem lookupA_of_mem_nodup (acc : List (String × β))
    (hnd : (acc.map Prod.fst).Nodup) (p : String × β) (hp : p ∈ acc) :
    lookupA p.1 acc = some p.2 := by
  induction acc with
  | nil => cases hp
  | cons q r ih =>
    rw [List.map_cons, List.nodup_cons] at hnd
    rw [List.mem_cons] at hp
    rcases hp with hp | hp
    · subst hp
      simp [lookupA]
    · simp only [lookupA]
      have hne : ¬ (q.1 = p.1) := by
        intro he
        exact hnd.1 (he ▸ List.mem_map_of_mem Prod.fst hp)
      rw [if_neg hne]
      exact ih hnd.2 hp

/-- Every entry of a grouped dict is the fold of the matching records. -/
theorem mem_groupFold_eq (l : List Transaction) (p : String × β)
    (hp : p ∈ groupFold key upd dflt l) :
    p.2 = (l.filter (fun t => key t = p.1)).foldl (fun b t => upd t b) dflt := by
  have h1 := lookupA_of_mem_nodup (groupFold key upd dflt l)
    (nodupKeys_groupFold key upd dflt l) p hp
  rw [lookupA_groupFold] at h1
  by_cases ha : l.any (fun t => key t = p.1)
  · rw [if_pos ha] at h1
    exact (Option.some_injective _ h1).symm
  · rw [if_neg ha] at h1
    cases h1

end GroupFoldLemmas

/-! ## C8: top-selling products -/

theorem prodFold_eq (m : List Transaction) :
    ∀ init : ProductAcc,
      m.foldl (fun st t => (⟨st.total_quantity + t.quantity,
          st.total_revenue + txnRevenue t⟩ : ProductAcc)) init
        = ⟨init.total_quantity + (m.map (fun t => t.quantity)).sum,
            init.total_revenue + (m.map txnRevenue).sum⟩ := by
  induction m with
  | nil => intro init; simp
  | cons t m ih =>
    intro init
    rw [List.foldl_cons, ih]
    simp only [List.map_cons, List.sum_cons, ProductAcc.mk.injEq]
    constructor <;> ring

/-- **C8.** `top_selling_products` returns at most `n` tuples, sorted by
total quantity descending, and each tuple carries the product's summed
quantity and its revenue rounded to 2 decimals. -/
theorem C8_top_products (l : List Transaction) (n : Nat) :
    (top_selling_products l n).length ≤ n ∧
    List.Pairwise (fun a b => b.2.1 ≤ a.2.1) (top_selling_products l n) ∧
    ∀ e ∈ top_selling_products l n,
      e.2.1 = ((l.filter (fun t => t.productName = e.1)).map
        (fun t => t.quantity)).sum ∧
      e.2.2 = round2 (((l.filter (fun t => t.productName = e.1)).map
        txnRevenue).sum) := by
  unfold top_selling_products
  refine ⟨?_, ?_, ?_⟩
  · rw [List.length_map, List.length_take]
    exact min_le_left _ _
  · have hs : List.Pairwise productOrder
        (List.insertionSort productOrder (productGroups l)) :=
      List.sorted_insertionSort productOrder _
    have ht : List.Pairwise productOrder
        ((List.insertionSort productOrder (productGroups l)).take n) :=
      List.Pairwise.sublist (List.take_sublist n _) hs
    exact List.Pairwise.map _ (fun a b hab => hab) ht
  · intro e he
    obtain ⟨p, hp, rfl⟩ := List.mem_map.mp he
    have hp2 : p ∈ List.insertionSort productOrder (productGroups l) :=
      List.mem_of_mem_take hp
    have hp3 : p ∈ productGroups l :=
      (List.perm_insertionSort productOrder _).mem_iff.mp hp2
    unfold productGroups at hp3
    have hchar := mem_groupFold_eq (fun t => t.productName)
      (fun t st => (⟨st.total_quantity + t.quantity,
        st.total_revenue + txnRevenue t⟩ : ProductAcc))
      (⟨0, 0⟩ : ProductAcc) l p hp3
    rw [prodFold_eq] at hchar
    rw [hchar]
    simp

/-- Sample parsed transactions for concrete instantiations. -/
def demoSales : List Transaction :=
  [⟨"T001", "2024-12-01", "P101", "Laptop", 2, 45000, "C001", "North"⟩,
   ⟨"T002", "2024-12-02", "P102", "Mouse", 10, 500, "C002", "South"⟩]

theorem C8_top_products_witness :
    (top_selling_products demoSales 1).length ≤ 1 ∧
    List.Pairwise (fun a b => b.2.1 ≤ a.2.1) (top_selling_products demoSales 1) ∧
    ∀ e ∈ top_selling_products demoSales 1,
      e.2.1 = ((demoSales.filter (fun t => t.productName = e.1)).map
        (fun t => t.quantity)).sum ∧
      e.2.2 = round2 (((demoSales.filter (fun t => t.productName = e.1)).map
        txnRevenue).sum) :=
  C8_top_products demoSales 1

/-- **C6 (code defect).** On an empty transaction list `daily_sales` is
empty, the guard produces `(None, None)`, and the unconditional
`peak_data['revenue']` subscription raises a `TypeError` that escapes
`find_peak_sales_day` — contrary to the documented "undefined/None if no
data". -/
theorem C6_peak_day_empty_input_raises :
    find_peak_sales_day []
      = Except.error "TypeError: NoneType object is not subscriptable" := rfl

/-! ## C7: region-wise percentages -/

theorem rndHalfEven_abs (q : ℚ) : |((rndHalfEven q : ℤ) : ℚ) - q| ≤ 1 / 2 := by
  simp only [rndHalfEven]
  have h0 : (0 : ℚ) ≤ q - ⌊q⌋ := by
    have := Int.floor_le q
    linarith
  have h1 : q - ⌊q⌋ < 1 := by
    have := Int.lt_floor_add_one q
    linarith
  by_cases hc1 : q - (⌊q⌋ : ℚ) < 1 / 2
  · rw [if_pos hc1, abs_le]
    constructor <;> linarith
  · rw [if_neg hc1]
    by_cases hc2 : (1 : ℚ) / 2 < q - ⌊q⌋
    · rw [if_pos hc2, abs_le]
      constructor <;> push_cast <;> linarith
    · rw [if_neg hc2]
      by_cases hc3 : ⌊q⌋ % 2 = 0
      · rw [if_pos hc3, abs_le]
        constructor <;> linarith
      · rw [if_neg hc3, abs_le]
        constructor <;> push_cast <;> linarith

theorem round2_abs (q : ℚ) : |round2 q - q| ≤ 1 / 200 := by
  unfold round2
  have h := rndHalfEven_abs (q * 100)
  have h2 : ((rndHalfEven (q * 100) : ℤ) : ℚ) / 100 - q
      = (((rndHalfEven (q * 100) : ℤ) : ℚ) - q * 100) / 100 := by ring
  rw [h2, abs_div]
  have h100 : |(100 : ℚ)| = 100 := by norm_num
  rw [h100]
  linarith

theorem sum_round2_abs (xs : List ℚ) :
    |(xs.map round2).sum - xs.sum| ≤ (xs.length : ℚ) / 200 := by
  induction xs with
  | nil => simp
  | cons x xs ih =>
    simp only [List.map_cons, List.sum_cons, List.length_cons]
    have h1 := round2_abs x
    have h2 : round2 x + (xs.map round2).sum - (x + xs.sum)
        = (round2 x - x) + ((xs.map round2).sum - xs.sum) := by ring
    rw [h2]
    have h3 := abs_add (round2 x - x) ((xs.map round2).sum - xs.sum)
    have h4 : ((xs.length + 1 : ℕ) : ℚ) / 200
        = 1 / 200 + (xs.length : ℚ) / 200 := by push_cast; ring
    rw [h4]
    linarith

theorem crt_foldl (l : List Transaction) :
    ∀ init : ℚ, l.foldl (fun acc t => acc + txnRevenue t) init
      = init + (l.map txnRevenue).sum := by
  induction l with
  | nil => intro init; simp
  | cons t l ih =>
    intro init
    rw [List.foldl_cons, ih]
    simp only [List.map_cons, List.sum_cons]
    ring

theorem crt_eq_sum (l : List Transaction) :
    calculate_total_revenue l = (l.map txnRevenue).sum := by
  unfold calculate_total_revenue
  rw [crt_foldl]
  ring

theorem sum_map_update_ts (acc : List (String × RegionAcc)) (k : String)
    (r : ℚ) (hnd : (acc.map Prod.fst).Nodup) :
    ((acc.map (fun p => if p.1 = k then
        (p.1, (⟨p.2.total_sales + r, p.2.transaction_count + 1⟩ : RegionAcc))
      else p)).map (fun p => p.2.total_sales)).sum
      = (acc.map (fun p => p.2.total_sales)).sum
        + (if (lookupA k acc).isSome then r else 0) := by
  induction acc with
  | nil => simp [lookupA]
  | cons p rest ih =>
    rw [List.map_cons, List.nodup_cons] at hnd
    simp only [List.map_cons, List.sum_cons, lookupA]
    by_cases hp : p.1 = k
    · have hrest : (rest.map (fun p => if p.1 = k then
          (p.1, (⟨p.2.total_sales + r, p.2.transaction_count + 1⟩ : RegionAcc))
        else p)) = rest := by
        conv_rhs => rw [← List.map_id rest]
        apply List.map_congr_left
        intro q hq
        have hqk : ¬ (q.1 = k) := by
          intro he
          exact hnd.1 (hp ▸ he ▸ List.mem_map_of_mem Prod.fst hq)
        rw [if_neg hqk]
        rfl
      simp only [if_pos hp, hrest]
      simp only [Option.isSome_some, if_true]
      ring
    · simp only [if_neg hp]
      rw [ih hnd.2]
      ring

theorem sumTS_bump (acc : List (String × RegionAcc)) (k : String) (r : ℚ)
    (hnd : (acc.map Prod.fst).Nodup) :
    ((bumpAssoc acc k
        (fun st => ⟨st.total_sales + r, st.transaction_count + 1⟩)
        (⟨0, 0⟩ : RegionAcc)).map (fun p => p.2.total_sales)).sum
      = (acc.map (fun p => p.2.total_sales)).sum + r := by
  unfold bumpAssoc
  by_cases h : (lookupA k acc).isSome
  · rw [if_pos h, sum_map_update_ts acc k r hnd, if_pos h]
  · rw [if_neg h]
    rw [List.map_append, List.sum_append]
    simp

theorem sumTS_foldgroup (l : List Transaction) :
    ∀ acc : List (String × RegionAcc), (acc.map Prod.fst).Nodup →
      ((l.foldl (fun a t => bumpAssoc a t.region
          (fun st => ⟨st.total_sales + txnRevenue t, st.transaction_count + 1⟩)
          (⟨0, 0⟩ : RegionAcc)) acc).map (fun p => p.2.total_sales)).sum
        = (acc.map (fun p => p.2.total_sales)).sum + (l.map txnRevenue).sum := by
  induction l with
  | nil => intro acc _; simp
  | cons t l ih =>
    intro acc hnd
    rw [List.foldl_cons, ih _ (nodupKeys_bump _ _ _ _ hnd),
      sumTS_bump acc t.region (txnRevenue t) hnd]
    simp only [List.map_cons, List.sum_cons]
    ring

theorem sum_regionGroups (l : List Transaction) :
    ((regionGroups l).map (fun p => p.2.total_sales)).sum
      = (l.map txnRevenue).sum := by
  unfold regionGroups groupFold
  rw [sumTS_foldgroup l [] (by simp)]
  simp

theorem sum_map_mul_const {α : Type} (m : List α) (g : α → ℚ) (c : ℚ) :
    (m.map (fun a => g a * c)).sum = (m.map g).sum * c := by
  induction m with
  | nil => simp
  | cons a m ih =>
    simp only [List.map_cons, List.sum_cons, ih]
    ring

/-- **C7.** When the grand total is positive the rounded per-region
percentages sum to 100 up to the accumulated rounding error (at most
`1/200` per region); when the grand total is 0 every percentage is 0; and
the output is ordered by `total_sales` descending. -/
theorem C7_region_percentages (l : List Transaction) :
    (0 < calculate_total_revenue l →
      |(((region_wise_sales l).map (fun p => p.2.percentage)).sum) - 100|
        ≤ ((region_wise_sales l).length : ℚ) / 200) ∧
    (calculate_total_revenue l = 0 →
      ∀ p ∈ region_wise_sales l, p.2.percentage = 0) ∧
    List.Pairwise (fun a b => b.2.total_sales ≤ a.2.total_sales)
      (region_wise_sales l) := by
  refine ⟨?_, ?_, ?_⟩
  · intro hT
    have hTne : calculate_total_revenue l ≠ 0 := ne_of_gt hT
    have hperm : List.Perm (region_wise_sales l)
        ((regionGroups l).map (fun p =>
            (p.1, (⟨p.2.total_sales, p.2.transaction_count,
              if 0 < calculate_total_revenue l then
                round2 (p.2.total_sales / calculate_total_revenue l * 100)
              else 0⟩ : RegionStats)))) :=
      List.perm_insertionSort _ _
    have hsum : ((region_wise_sales l).map (fun p => p.2.percentage)).sum
        = (((regionGroups l).map (fun p =>
            (p.1, (⟨p.2.total_sales, p.2.transaction_count,
              if 0 < calculate_total_revenue l then
                round2 (p.2.total_sales / calculate_total_revenue l * 100)
              else 0⟩ : RegionStats)))).map (fun p => p.2.percentage)).sum :=
      (hperm.map _).sum_eq
    have hlen : (region_wise_sales l).length
        = (regionGroups l).length := by
      rw [hperm.length_eq, List.length_map]
    rw [hsum, hlen, List.map_map]
    have hmap : ((regionGroups l).map ((fun p => p.2.percentage) ∘ (fun p =>
        (p.1, (⟨p.2.total_sales, p.2.transaction_count,
          if 0 < calculate_total_revenue l then
            round2 (p.2.total_sales / calculate_total_revenue l * 100)
          else 0⟩ : RegionStats)))))
        = ((regionGroups l).map (fun p =>
            p.2.total_sales / calculate_total_revenue l * 100)).map round2 := by
      rw [List.map_map]
      apply List.map_congr_left
      intro p _
      simp only [Function.comp]
      rw [if_pos hT]
    rw [hmap]
    have hxs : ((regionGroups l).map (fun p =>
        p.2.total_sales / calculate_total_revenue l * 100)).sum = 100 := by
      have he : (regionGroups l).map (fun p =>
          p.2.total_sales / calculate_total_revenue l * 100)
          = (regionGroups l).map (fun p =>
              p.2.total_sales * (100 / calculate_total_revenue l)) := by
        apply List.map_congr_left
        intro p _
        ring
      rw [he, sum_map_mul_const, sum_regionGroups, ← crt_eq_sum]
      field_simp
    have hbound := sum_round2_abs ((regionGroups l).map (fun p =>
      p.2.total_sales / calculate_total_revenue l * 100))
    rw [hxs, List.length_map] at hbound
    exact hbound
  · intro hT p hp
    have hp2 : p ∈ (regionGroups l).map (fun p =>
        (p.1, (⟨p.2.total_sales, p.2.transaction_count,
          if 0 < calculate_total_revenue l then
            round2 (p.2.total_sales / calculate_total_revenue l * 100)
          else 0⟩ : RegionStats))) :=
      (List.perm_insertionSort _ _).mem_iff.mp hp
    obtain ⟨q, _, rfl⟩ := List.mem_map.mp hp2
    show (if 0 < calculate_total_revenue l then _ else 0) = 0
    rw [if_neg (by rw [hT]; exact lt_irrefl 0)]
  · exact List.sorted_insertionSort regionOrder _

theorem C7_region_percentages_witness :
    (|(((region_wise_sales demoSales).map (fun p => p.2.percentage)).sum)
        - 100| ≤ ((region_wise_sales demoSales).length : ℚ) / 200) ∧
    (∀ p ∈ region_wise_sales [], p.2.percentage = 0) :=
  ⟨(C7_region_percentages demoSales).1
      (by norm_num [calculate_total_revenue, txnRevenue, demoSales]),
    (C7_region_percentages []).2.1 rfl⟩
